import Mathlib

/-!
Shallow embedding of the Blackjack networking assignment
(`protocol.py`, `server.py`, `myHakathon/client.py`).

Byte strings are modelled as `List Nat` (each entry a byte, `< 256`).
Strings that cross the wire (server/client names, decision tokens) are
modelled by their UTF-8 byte encodings, since that is what the Python
code packs and unpacks.  Fallible Python functions become
`Option`/`Except`-returning Lean functions; a Python exception that a
function can raise is an explicit error value.
-/

namespace BJ

/-! ### protocol.py constants -/

def MAGIC_COOKIE : Nat := 0xABCDDCBA

def MSG_OFFER : Nat := 0x2
def MSG_REQUEST : Nat := 0x3
def MSG_PAYLOAD : Nat := 0x4

def RES_NOT_OVER : Nat := 0x0
def RES_TIE : Nat := 0x1
def RES_LOSS : Nat := 0x2
def RES_WIN : Nat := 0x3

/-- Big-endian 2-byte encoding of a (already masked) 16-bit value,
as produced by `struct.pack("!H", n)`. -/
def be2 (n : Nat) : List Nat := [n / 256 % 256, n % 256]

/-- Big-endian 4-byte encoding of a 32-bit value (`struct.pack("!I", n)`). -/
def be4 (n : Nat) : List Nat :=
  [n / 16777216 % 256, n / 65536 % 256, n / 256 % 256, n % 256]

/-- Big-endian value of a byte string (`struct.unpack` of an unsigned
big-endian field). -/
def fromBytesBE (l : List Nat) : Nat := l.foldl (fun a b => a * 256 + b) 0

/-- The four magic-cookie bytes `struct.pack("!I", 0xABCDDCBA)`. -/
def magicBytes : List Nat := be4 MAGIC_COOKIE

/-- `_fixed_name_bytes`: truncate the UTF-8 bytes of the name to 32 and
right-pad with zero bytes to exactly 32. -/
def fixedNameBytes (name : List Nat) : List Nat :=
  let b := name.take 32
  b ++ List.replicate (32 - b.length) 0

/-- `_decode_fixed_name`: `b.split(b"\x00", 1)[0]`, i.e. the prefix of
the field before the first zero byte (then UTF-8-decoded; we stay at
the byte level). -/
def decodeFixedName (b : List Nat) : List Nat := b.takeWhile (fun x => x ≠ 0)

/-- `pack_offer`: `struct.pack("!I B H 32s", MAGIC_COOKIE, MSG_OFFER, tcp_port, name)`. -/
def packOffer (tcpPort : Nat) (serverName : List Nat) : List Nat :=
  magicBytes ++ [MSG_OFFER] ++ be2 tcpPort ++ fixedNameBytes serverName

/-- `unpack_offer`: length check, field extraction, magic/type check. -/
def unpackOffer (data : List Nat) : Option (Nat × List Nat) :=
  if data.length < 39 then none
  else
    let cookie := fromBytesBE (data.take 4)
    let mtype := data.getD 4 0
    let tcpPort := fromBytesBE ((data.drop 5).take 2)
    let name := (data.drop 7).take 32
    if cookie ≠ MAGIC_COOKIE ∨ mtype ≠ MSG_OFFER then none
    else some (tcpPort, decodeFixedName name)

/-- `pack_request`: `rounds = int(rounds) & 0xFF` (Python `&` on a
possibly-negative int is the nonnegative residue, i.e. `emod 256`),
then `struct.pack("!I B B 32s", ...)`. -/
def packRequest (rounds : Int) (clientName : List Nat) : List Nat :=
  magicBytes ++ [MSG_REQUEST] ++ [(rounds % 256).toNat] ++ fixedNameBytes clientName

/-- `unpack_request`. -/
def unpackRequest (data : List Nat) : Option (Nat × List Nat) :=
  if data.length < 38 then none
  else
    let cookie := fromBytesBE (data.take 4)
    let mtype := data.getD 4 0
    let rounds := data.getD 5 0
    let name := (data.drop 6).take 32
    if cookie ≠ MAGIC_COOKIE ∨ mtype ≠ MSG_REQUEST then none
    else some (rounds, decodeFixedName name)

/-- The ASCII bytes of the 5-byte token `"Hittt"`. -/
def hitToken : List Nat := [72, 105, 116, 116, 116]

/-- The ASCII bytes of the 5-byte token `"Stand"`. -/
def standToken : List Nat := [83, 116, 97, 110, 100]

/-- `pack_client_decision`: raises `ValueError` unless the decision is
one of the two canonical tokens; modelled as `none` on the error path. -/
def packClientDecision (decision : List Nat) : Option (List Nat) :=
  if decision = hitToken ∨ decision = standToken then
    some (magicBytes ++ [MSG_PAYLOAD] ++ decision)
  else none

/-- `bytes.decode("ascii", errors="ignore")`: non-ASCII bytes (≥ 128)
are dropped; the result is modelled by its byte encoding. -/
def asciiDecodeIgnore (b : List Nat) : List Nat := b.filter (fun x => x < 128)

/-- `unpack_client_decision`: length/magic/type checks, then the 5-byte
field is ASCII-decoded with errors ignored and compared against the two
canonical tokens; anything else yields `None`. -/
def unpackClientDecision (data : List Nat) : Option (List Nat) :=
  if data.length < 10 then none
  else
    let cookie := fromBytesBE (data.take 4)
    let mtype := data.getD 4 0
    let d := (data.drop 5).take 5
    if cookie ≠ MAGIC_COOKIE ∨ mtype ≠ MSG_PAYLOAD then none
    else
      let s := asciiDecodeIgnore d
      if s = hitToken ∨ s = standToken then some s else none

/-- `pack_server_update`: `result & 0xFF`, `rank & 0xFFFF`, `suit & 0xFF`,
packed as `!I B B H B`. -/
def packServerUpdate (result rank suit : Nat) : List Nat :=
  magicBytes ++ [MSG_PAYLOAD] ++ [result % 256] ++ be2 (rank % 65536) ++ [suit % 256]

/-- `unpack_server_update`. -/
def unpackServerUpdate (data : List Nat) : Option (Nat × Nat × Nat) :=
  if data.length < 9 then none
  else
    let cookie := fromBytesBE (data.take 4)
    let mtype := data.getD 4 0
    let res := data.getD 5 0
    let rank := fromBytesBE ((data.drop 6).take 2)
    let suit := data.getD 8 0
    if cookie ≠ MAGIC_COOKIE ∨ mtype ≠ MSG_PAYLOAD then none
    else some (res, rank, suit)

/-- `card_value`: ranks ≥ 11 are worth 10, otherwise the rank itself
(aces are worth 1: the rank-1 special case is commented out in the source). -/
def cardValue (rank : Nat) : Nat := if rank ≥ 11 then 10 else rank

end BJ

namespace BJ

lemma fixedNameBytes_length (name : List Nat) : (fixedNameBytes name).length = 32 := by
  simp [fixedNameBytes]

lemma takeWhile_append_of_all (p : Nat → Bool) (l₁ l₂ : List Nat)
    (h : ∀ a ∈ l₁, p a) :
    (l₁ ++ l₂).takeWhile p = l₁ ++ l₂.takeWhile p := by
  induction l₁ with
  | nil => simp
  | cons a as ih =>
      simp only [List.mem_cons] at h
      simp [List.takeWhile_cons, h a (Or.inl rfl), ih (fun b hb => h b (Or.inr hb))]

lemma takeWhile_replicate_zero (n : Nat) :
    (List.replicate n (0 : Nat)).takeWhile (fun x => x ≠ 0) = [] := by
  cases n <;> simp [List.replicate_succ, List.takeWhile_cons]

lemma decodeFixedName_fixedNameBytes (name : List Nat) (h32 : name.length ≤ 32)
    (h0 : ∀ b ∈ name, b ≠ 0) :
    decodeFixedName (fixedNameBytes name) = name := by
  unfold decodeFixedName fixedNameBytes
  rw [List.take_of_length_le h32]
  rw [takeWhile_append_of_all _ _ _ (fun a ha => by simpa using h0 a ha)]
  rw [takeWhile_replicate_zero]
  simp

lemma packOffer_eq (port : Nat) (name : List Nat) :
    packOffer port name =
      171 :: 205 :: 220 :: 186 :: 2 :: (port / 256 % 256) :: (port % 256) ::
        fixedNameBytes name := by
  simp [packOffer, magicBytes, be4, be2, MAGIC_COOKIE, MSG_OFFER]

lemma unpackOffer_packOffer (port : Nat) (name : List Nat) (hp : port < 65536)
    (h32 : name.length ≤ 32) (h0 : ∀ b ∈ name, b ≠ 0) :
    unpackOffer (packOffer port name) = some (port, name) := by
  rw [packOffer_eq]
  have hfn := fixedNameBytes_length name
  simp [unpackOffer, hfn, fromBytesBE, MAGIC_COOKIE, MSG_OFFER,
    List.take_of_length_le (le_of_eq hfn), List.getD]
  constructor
  · omega
  · exact decodeFixedName_fixedNameBytes name h32 h0

end BJ

namespace BJ

lemma packRequest_eq (rounds : Int) (name : List Nat) :
    packRequest rounds name =
      171 :: 205 :: 220 :: 186 :: 3 :: (rounds % 256).toNat :: fixedNameBytes name := by
  simp [packRequest, magicBytes, be4, MAGIC_COOKIE, MSG_REQUEST]

lemma unpackRequest_packRequest (rounds : Int) (name : List Nat)
    (h32 : name.length ≤ 32) (h0 : ∀ b ∈ name, b ≠ 0) :
    unpackRequest (packRequest rounds name) = some ((rounds % 256).toNat, name) := by
  rw [packRequest_eq]
  have hfn := fixedNameBytes_length name
  simp [unpackRequest, hfn, fromBytesBE, MAGIC_COOKIE, MSG_REQUEST,
    List.take_of_length_le (le_of_eq hfn), List.getD]
  exact decodeFixedName_fixedNameBytes name h32 h0

lemma unpackClientDecision_packClientDecision (tok : List Nat)
    (h : tok = hitToken ∨ tok = standToken) :
    (packClientDecision tok).bind unpackClientDecision = some tok := by
  rcases h with h | h <;> subst h <;> decide

lemma packServerUpdate_eq (result rank suit : Nat) :
    packServerUpdate result rank suit =
      171 :: 205 :: 220 :: 186 :: 4 :: (result % 256) ::
        (rank % 65536 / 256 % 256) :: (rank % 65536 % 256) :: [suit % 256] := by
  simp [packServerUpdate, magicBytes, be4, be2, MAGIC_COOKIE, MSG_PAYLOAD]

lemma unpackServerUpdate_packServerUpdate (result rank suit : Nat)
    (hres : result < 256) (hrank : rank < 65536) (hsuit : suit < 256) :
    unpackServerUpdate (packServerUpdate result rank suit) = some (result, rank, suit) := by
  rw [packServerUpdate_eq]
  simp [unpackServerUpdate, fromBytesBE, MAGIC_COOKIE, MSG_PAYLOAD, List.getD]
  omega

end BJ

namespace BJ

/-- **C1.** For every valid frame of each of the four kinds (Offer with a
port in 0..65535 and a name of at most 32 non-zero bytes; Request with
rounds in 0..255 and such a name; Decision with one of the two canonical
tokens; Update with result in 0..255, rank in 0..65535, suit in 0..255),
decoding the bytes produced by encoding yields the fields back. -/
theorem claim_C1_roundtrip
    (port : Nat) (sname cname tok : List Nat) (rounds result rank suit : Nat)
    (hport : port ≤ 65535)
    (hs32 : sname.length ≤ 32) (hs0 : ∀ b ∈ sname, b ≠ 0)
    (hc32 : cname.length ≤ 32) (hc0 : ∀ b ∈ cname, b ≠ 0)
    (hrounds : rounds ≤ 255)
    (htok : tok = hitToken ∨ tok = standToken)
    (hres : result ≤ 255) (hrank : rank ≤ 65535) (hsuit : suit ≤ 255) :
    unpackOffer (packOffer port sname) = some (port, sname) ∧
    unpackRequest (packRequest rounds cname) = some (rounds, cname) ∧
    (packClientDecision tok).bind unpackClientDecision = some tok ∧
    unpackServerUpdate (packServerUpdate result rank suit) = some (result, rank, suit) := by
  refine ⟨unpackOffer_packOffer port sname (by omega) hs32 hs0, ?_,
    unpackClientDecision_packClientDecision tok htok,
    unpackServerUpdate_packServerUpdate result rank suit (by omega) (by omega) (by omega)⟩
  have h := unpackRequest_packRequest rounds cname hc32 hc0
  have he : (((rounds : Int)) % 256).toNat = rounds := by omega
  rw [h, he]

/-- Witness for C1 at concrete valid frames of all four kinds. -/
theorem claim_C1_roundtrip_witness :
    unpackOffer (packOffer 8080 [104, 105]) = some (8080, [104, 105]) ∧
    unpackRequest (packRequest 7 [99]) = some (7, [99]) ∧
    (packClientDecision hitToken).bind unpackClientDecision = some hitToken ∧
    unpackServerUpdate (packServerUpdate 3 13 2) = some (3, 13, 2) :=
  claim_C1_roundtrip 8080 [104, 105] [99] hitToken 7 3 13 2 (by decide)
    (by decide) (by decide) (by decide) (by decide) (by decide)
    (Or.inl rfl) (by decide) (by decide) (by decide)

end BJ

namespace BJ

lemma magicBytes_eq : magicBytes = [171, 205, 220, 186] := by rfl

lemma take4_magic (data : List Nat) (hb : ∀ b ∈ data, b < 256) (hlen : 4 ≤ data.length)
    (h : fromBytesBE (data.take 4) = MAGIC_COOKIE) : data.take 4 = magicBytes := by
  rcases data with _ | ⟨b0, _ | ⟨b1, _ | ⟨b2, _ | ⟨b3, rest⟩⟩⟩⟩ <;> simp at hlen
  have h0 : b0 < 256 := hb _ (by simp)
  have h1 : b1 < 256 := hb _ (by simp)
  have h2 : b2 < 256 := hb _ (by simp)
  have h3 : b3 < 256 := hb _ (by simp)
  rw [magicBytes_eq]
  have hfb : fromBytesBE ((b0 :: b1 :: b2 :: b3 :: rest).take 4) =
      ((b0 * 256 + b1) * 256 + b2) * 256 + b3 := by
    simp [fromBytesBE]
  rw [hfb, MAGIC_COOKIE] at h
  simp
  omega

lemma unpackOffer_invalid (data : List Nat) (hb : ∀ b ∈ data, b < 256) :
    (data.length < 39 → unpackOffer data = none) ∧
    (data.take 4 ≠ magicBytes → unpackOffer data = none) ∧
    (data.getD 4 0 ≠ MSG_OFFER → unpackOffer data = none) := by
  refine ⟨fun h => by simp [unpackOffer, h], fun h => ?_, fun h => ?_⟩ <;>
      by_cases hlen : data.length < 39
  · simp [unpackOffer, hlen]
  · have h4 : 4 ≤ data.length := by omega
    have hm : fromBytesBE (data.take 4) ≠ MAGIC_COOKIE :=
      fun hc => h (take4_magic data hb h4 hc)
    simp [unpackOffer, hlen, hm]
  · simp [unpackOffer, hlen]
  · simp [unpackOffer, hlen, List.getD] at h ⊢
    exact fun _ => h

end BJ

namespace BJ

lemma unpackRequest_invalid (data : List Nat) (hb : ∀ b ∈ data, b < 256) :
    (data.length < 38 → unpackRequest data = none) ∧
    (data.take 4 ≠ magicBytes → unpackRequest data = none) ∧
    (data.getD 4 0 ≠ MSG_REQUEST → unpackRequest data = none) := by
  refine ⟨fun h => by simp [unpackRequest, h], fun h => ?_, fun h => ?_⟩ <;>
      by_cases hlen : data.length < 38
  · simp [unpackRequest, hlen]
  · have h4 : 4 ≤ data.length := by omega
    have hm : fromBytesBE (data.take 4) ≠ MAGIC_COOKIE :=
      fun hc => h (take4_magic data hb h4 hc)
    simp [unpackRequest, hlen, hm]
  · simp [unpackRequest, hlen]
  · simp [unpackRequest, hlen, List.getD] at h ⊢
    exact fun _ => h

lemma unpackClientDecision_invalid (data : List Nat) (hb : ∀ b ∈ data, b < 256) :
    (data.length < 10 → unpackClientDecision data = none) ∧
    (data.take 4 ≠ magicBytes → unpackClientDecision data = none) ∧
    (data.getD 4 0 ≠ MSG_PAYLOAD → unpackClientDecision data = none) := by
  refine ⟨fun h => by simp [unpackClientDecision, h], fun h => ?_, fun h => ?_⟩ <;>
      by_cases hlen : data.length < 10
  · simp [unpackClientDecision, hlen]
  · have h4 : 4 ≤ data.length := by omega
    have hm : fromBytesBE (data.take 4) ≠ MAGIC_COOKIE :=
      fun hc => h (take4_magic data hb h4 hc)
    simp [unpackClientDecision, hlen, hm]
  · simp [unpackClientDecision, hlen]
  · simp [unpackClientDecision, hlen, List.getD] at h ⊢
    exact fun _ hm => absurd hm h

lemma unpackServerUpdate_invalid (data : List Nat) (hb : ∀ b ∈ data, b < 256) :
    (data.length < 9 → unpackServerUpdate data = none) ∧
    (data.take 4 ≠ magicBytes → unpackServerUpdate data = none) ∧
    (data.getD 4 0 ≠ MSG_PAYLOAD → unpackServerUpdate data = none) := by
  refine ⟨fun h => by simp [unpackServerUpdate, h], fun h => ?_, fun h => ?_⟩ <;>
      by_cases hlen : data.length < 9
  · simp [unpackServerUpdate, hlen]
  · have h4 : 4 ≤ data.length := by omega
    have hm : fromBytesBE (data.take 4) ≠ MAGIC_COOKIE :=
      fun hc => h (take4_magic data hb h4 hc)
    simp [unpackServerUpdate, hlen, hm]
  · simp [unpackServerUpdate, hlen]
  · simp [unpackServerUpdate, hlen, List.getD] at h ⊢
    exact fun _ => h

/-- **C2.** Each decoder returns `none` (never an exception: all four are
total functions) whenever the buffer is shorter than that kind's fixed
size, or its first 4 bytes differ from the magic-cookie bytes, or its
type-discriminator byte differs from the kind's type. -/
theorem claim_C2_decode_invalid (data : List Nat) (hb : ∀ b ∈ data, b < 256) :
    (data.length < 39 → unpackOffer data = none) ∧
    (data.length < 38 → unpackRequest data = none) ∧
    (data.length < 10 → unpackClientDecision data = none) ∧
    (data.length < 9 → unpackServerUpdate data = none) ∧
    (data.take 4 ≠ magicBytes →
      unpackOffer data = none ∧ unpackRequest data = none ∧
      unpackClientDecision data = none ∧ unpackServerUpdate data = none) ∧
    (data.getD 4 0 ≠ MSG_OFFER → unpackOffer data = none) ∧
    (data.getD 4 0 ≠ MSG_REQUEST → unpackRequest data = none) ∧
    (data.getD 4 0 ≠ MSG_PAYLOAD →
      unpackClientDecision data = none ∧ unpackServerUpdate data = none) := by
  obtain ⟨o1, o2, o3⟩ := unpackOffer_invalid data hb
  obtain ⟨r1, r2, r3⟩ := unpackRequest_invalid data hb
  obtain ⟨c1, c2, c3⟩ := unpackClientDecision_invalid data hb
  obtain ⟨u1, u2, u3⟩ := unpackServerUpdate_invalid data hb
  exact ⟨o1, r1, c1, u1, fun h => ⟨o2 h, r2 h, c2 h, u2 h⟩, o3, r3,
    fun h => ⟨c3 h, u3 h⟩⟩

/-- Witness for C2 at the concrete 10-byte buffer of zeros (short for
Offer/Request, wrong magic and type for all kinds). -/
theorem claim_C2_decode_invalid_witness :
    ((List.replicate 10 0).length < 39 →
      unpackOffer (List.replicate 10 0) = none) ∧
    ((List.replicate 10 0).length < 38 →
      unpackRequest (List.replicate 10 0) = none) ∧
    ((List.replicate 10 0).length < 10 →
      unpackClientDecision (List.replicate 10 0) = none) ∧
    ((List.replicate 10 0).length < 9 →
      unpackServerUpdate (List.replicate 10 0) = none) ∧
    ((List.replicate 10 0).take 4 ≠ magicBytes →
      unpackOffer (List.replicate 10 0) = none ∧
      unpackRequest (List.replicate 10 0) = none ∧
      unpackClientDecision (List.replicate 10 0) = none ∧
      unpackServerUpdate (List.replicate 10 0) = none) ∧
    ((List.replicate 10 0).getD 4 0 ≠ MSG_OFFER →
      unpackOffer (List.replicate 10 0) = none) ∧
    ((List.replicate 10 0).getD 4 0 ≠ MSG_REQUEST →
      unpackRequest (List.replicate 10 0) = none) ∧
    ((List.replicate 10 0).getD 4 0 ≠ MSG_PAYLOAD →
      unpackClientDecision (List.replicate 10 0) = none ∧
      unpackServerUpdate (List.replicate 10 0) = none) :=
  claim_C2_decode_invalid (List.replicate 10 0) (by decide)

end BJ

namespace BJ

lemma asciiDecodeIgnore_eq_of_eq_token (tok t : List Nat) (hlen : tok.length = t.length)
    (h : asciiDecodeIgnore tok = t) : tok = t := by
  have hs : List.Sublist (asciiDecodeIgnore tok) tok := List.filter_sublist tok
  rw [h] at hs
  exact (hs.eq_of_length hlen.symm).symm

/-- **C3.** For a 10-byte Decision frame with correct magic and type, the
decoder returns the token exactly when the 5-byte field is one of the
two canonical tokens, and `none` for every other 5-byte payload. -/
theorem claim_C3_decision_tokens (tok : List Nat) (h5 : tok.length = 5) :
    unpackClientDecision (magicBytes ++ MSG_PAYLOAD :: tok) =
      (if tok = hitToken ∨ tok = standToken then some tok else none) := by
  by_cases h : tok = hitToken ∨ tok = standToken
  · rcases h with h | h <;> subst h <;> decide
  · rw [if_neg h]
    push_neg at h
    rw [magicBytes_eq]
    simp [unpackClientDecision, fromBytesBE, MAGIC_COOKIE, MSG_PAYLOAD,
      List.getD, List.take_of_length_le (le_of_eq h5)]
    refine fun _ => ⟨fun hs => h.1 ?_, fun hs => h.2 ?_⟩
    · exact asciiDecodeIgnore_eq_of_eq_token tok hitToken (by simp [h5, hitToken]) hs
    · exact asciiDecodeIgnore_eq_of_eq_token tok standToken (by simp [h5, standToken]) hs

/-- Witness for C3 at a non-canonical 5-byte payload and at `"Hittt"`. -/
theorem claim_C3_decision_tokens_witness :
    unpackClientDecision (magicBytes ++ MSG_PAYLOAD :: [1, 2, 3, 4, 5]) =
      (if ([1, 2, 3, 4, 5] : List Nat) = hitToken ∨ ([1, 2, 3, 4, 5] : List Nat) = standToken
       then some [1, 2, 3, 4, 5] else none) :=
  claim_C3_decision_tokens [1, 2, 3, 4, 5] (by decide)

/-- **C10.** `pack_request` encodes the rounds byte as the requested
count modulo 256: an out-of-range count wraps on the wire (300 is sent
as 44) rather than being clamped or rejected at the encoder. -/
theorem claim_C10_request_wraps (r : Int) (name : List Nat)
    (h32 : name.length ≤ 32) (h0 : ∀ b ∈ name, b ≠ 0) :
    (packRequest r name).getD 5 0 = (r % 256).toNat ∧
    unpackRequest (packRequest r name) = some ((r % 256).toNat, name) ∧
    (packRequest 300 name).getD 5 0 = 44 := by
  refine ⟨?_, unpackRequest_packRequest r name h32 h0, ?_⟩
  · rw [packRequest_eq]
    simp [List.getD]
  · rw [packRequest_eq]
    simp [List.getD]

/-- Witness for C10 at the concrete request of 300 rounds. -/
theorem claim_C10_request_wraps_witness :
    (packRequest 300 []).getD 5 0 = ((300 : Int) % 256).toNat ∧
    unpackRequest (packRequest 300 []) = some (((300 : Int) % 256).toNat, []) ∧
    (packRequest 300 []).getD 5 0 = 44 :=
  claim_C10_request_wraps 300 [] (by decide) (by decide)

end BJ

namespace BJ

/-! ### server.py: deck, hands, round engine -/

/-- A card `(rank, suit)` as in `server.py` (`Card = Tuple[int, int]`). -/
abbrev Card := Nat × Nat

/-- `sum_cards`: the running sum of the card values of a hand. -/
def sumCards (cards : List Card) : Nat := (cards.map (fun c => cardValue c.1)).sum

/-- The list built by the comprehension in `fresh_shuffled_deck`
(`[(rank, suit) for suit in range(4) for rank in range(1, 14)]`) before
`random.shuffle` permutes it in place.  A shuffled deck is modelled as
an arbitrary `List.Perm`-permutation of this base list. -/
def freshDeckBase : List Card :=
  (List.range 4).flatMap (fun suit => (List.range 13).map (fun i => (i + 1, suit)))

/-- Python `list.pop()`: removes and returns the *last* element; `none`
models the `IndexError` raised on an empty list. -/
def pyPop {α : Type} (l : List α) : Option (α × List α) :=
  match l with
  | [] => none
  | a :: as => some (as.getLastD a, (a :: as).dropLast)

/-- The argument triple `(result, rank, suit)` of one
`send_update(conn, result, card)` call in `server.py`. -/
structure Upd where
  result : Nat
  rank : Nat
  suit : Nat
deriving DecidableEq

/-- `send_update` with a card attached (`result=RES_NOT_OVER` at every
call site that passes a card). -/
def updCard (c : Card) : Upd := ⟨RES_NOT_OVER, c.1, c.2⟩

/-- `send_update(conn, result, None)`: a terminal update whose card
fields are packed as `rank=0, suit=0`. -/
def updFinal (result : Nat) : Upd := ⟨result, 0, 0⟩

/-- One decoded client Decision as `handle_client` sees it:
`unpack_client_decision` returned `None` (invalid), `"Hittt"` or `"Stand"`. -/
inductive Dmsg
  | invalid
  | hit
  | stand
deriving DecidableEq

/-- How a round can end prematurely: `connClosed` models the
`ConnectionError` raised by `read_exact` when the peer closed;
`invalidDecision` models the early `return` after a bad Decision frame;
`deckEmpty` models the `IndexError` raised by `deck.pop()` on an empty
deck. -/
inductive RoundExit
  | connClosed
  | invalidDecision
  | deckEmpty
deriving DecidableEq

/-- The player-turn loop of `handle_client`: read one decision at a
time; `Stand` ends the turn; `Hittt` draws `deck.pop()`, appends to the
player's hand and sends `Update(not-over, card)`; a sum above 21 sends
the terminal loss update and sets `player_bust`.  Returns (updates
sent, `player_bust`, final player hand, remaining deck, remaining
decision stream). -/
def playerTurn : List Card → List Card → List Dmsg →
    Except RoundExit (List Upd × Bool × List Card × List Card × List Dmsg)
  | _, _, [] => .error .connClosed
  | _, _, .invalid :: _ => .error .invalidDecision
  | player, deck, .stand :: rest => .ok ([], false, player, deck, rest)
  | player, deck, .hit :: rest =>
    match pyPop deck with
    | none => .error .deckEmpty
    | some (c, deck') =>
      let player' := player ++ [c]
      if sumCards player' > 21 then
        .ok ([updCard c, updFinal RES_LOSS], true, player', deck', rest)
      else
        match playerTurn player' deck' rest with
        | .error e => .error e
        | .ok (us, b, p, dk, ds) => .ok (updCard c :: us, b, p, dk, ds)

/-- The dealer auto-play loop of `handle_client`, with an explicit
recursion bound: while the dealer's sum is `< 17`, draw `deck.pop()`,
append, send the card update; a sum above 21 sends the terminal win
update (dealer bust) and breaks out of the loop.  Each iteration pops
one card, so `fuel = deck.length` (as passed by `dealerLoop` below)
bounds the iterations; the `0, some _` branch is unreachable from that
entry point, since `pyPop` succeeds only on a nonempty deck.  Returns
(updates sent, final dealer hand, remaining deck, busted flag); the
flag records whether the loop ended by `break`, in which case the
`while`-`else` comparison is skipped. -/
def dealerLoopF (fuel : Nat) (dealer deck : List Card) :
    Except RoundExit (List Upd × List Card × List Card × Bool) :=
  if sumCards dealer < 17 then
    match fuel, pyPop deck with
    | _, none => .error .deckEmpty
    | 0, some _ => .error .deckEmpty
    | fuel' + 1, some (c, deck') =>
      let dealer' := dealer ++ [c]
      if sumCards dealer' > 21 then
        .ok ([updCard c, updFinal RES_WIN], dealer', deck', true)
      else
        match dealerLoopF fuel' dealer' deck' with
        | .error e => .error e
        | .ok (us, fin, dk, b) => .ok (updCard c :: us, fin, dk, b)
  else .ok ([], dealer, deck, false)

/-- The dealer auto-play loop (`while sum_cards(dealer) < 17`). -/
def dealerLoop (dealer deck : List Card) :
    Except RoundExit (List Upd × List Card × List Card × Bool) :=
  dealerLoopF deck.length dealer deck

end BJ

namespace BJ

/-- The comparison in the `while`-`else` branch of the dealer turn:
the result byte of the single terminal update sent after the dealer
stands (the `d_sum > 21` guard is the source's "shouldn't happen"
safety check). -/
def resolveStand (pSum dSum : Nat) : Nat :=
  if dSum > 21 then RES_WIN
  else if pSum > dSum then RES_WIN
  else if pSum < dSum then RES_LOSS
  else RES_TIE

/-- The dealer phase of `handle_client`, reached only when the player
did not bust: reveal the holecard (`dealer_down`), run the auto-play
loop, and - only on the `while`-`else` fall-through - send the terminal
comparison update. -/
def dealerPhase (player dealer : List Card) (dealerDown : Card) (deck : List Card) :
    Except RoundExit (List Upd × List Card × List Card × Bool) :=
  match dealerLoop dealer deck with
  | .error e => .error e
  | .ok (us, fin, dk, busted) =>
    if busted then .ok (updCard dealerDown :: us, fin, dk, true)
    else
      .ok (updCard dealerDown :: us ++
        [updFinal (resolveStand (sumCards player) (sumCards fin))], fin, dk, false)

/-- One iteration of the round loop of `handle_client`: draw two player
cards, the dealer upcard and holecard, send the three initial updates,
run the player turn, and unless the player busts run the dealer phase.
Returns (updates sent, `player_bust`, remaining decision stream). -/
def playRound (deck : List Card) (ds : List Dmsg) :
    Except RoundExit (List Upd × Bool × List Dmsg) :=
  match pyPop deck with
  | none => .error .deckEmpty
  | some (p1, deck1) =>
  match pyPop deck1 with
  | none => .error .deckEmpty
  | some (p2, deck2) =>
  match pyPop deck2 with
  | none => .error .deckEmpty
  | some (dealerUp, deck3) =>
  match pyPop deck3 with
  | none => .error .deckEmpty
  | some (dealerDown, deck4) =>
  let player := [p1, p2]
  let dealer := [dealerUp, dealerDown]
  let initUpds := [updCard p1, updCard p2, updCard dealerUp]
  match playerTurn player deck4 ds with
  | .error e => .error e
  | .ok (us, bust, player', deck', ds') =>
    if bust then .ok (initUpds ++ us, true, ds')
    else
      match dealerPhase player' dealer dealerDown deck' with
      | .error e => .error e
      | .ok (dus, _, _, _) => .ok (initUpds ++ us ++ dus, false, ds')

/-- `rounds = max(1, min(255, req.rounds))` in `handle_client`. -/
def clampRounds (r : Nat) : Nat := max 1 (min 255 r)

/-- The `for round_idx in range(1, rounds + 1)` loop of `handle_client`:
round `i` uses the fresh shuffled deck `decks i`; decisions are read
from the one connection stream across rounds.  Returns (number of
completed rounds, the exit that aborted the session, if any). -/
def sessionLoop (decks : Nat → List Card) (i : Nat) (ds : List Dmsg) :
    Nat → Nat × Option RoundExit
  | 0 => (0, none)
  | n + 1 =>
    match playRound (decks i) ds with
    | .error e => (0, some e)
    | .ok (_, _, ds') =>
      let r := sessionLoop decks (i + 1) ds' n
      (r.1 + 1, r.2)

/-- `handle_client` up to and including the round loop: read one
Request frame, give up on an invalid one, clamp the requested round
count into `[1, 255]`, then play that many rounds. -/
def handleClient (reqData : List Nat) (decks : Nat → List Card) (ds : List Dmsg) :
    Nat × Option RoundExit :=
  match unpackRequest reqData with
  | none => (0, none)
  | some (r, _) => sessionLoop decks 0 ds (clampRounds r)

/-- The Python exception classes relevant to the worker's handler. -/
inductive PyExc
  | connectionError
  | osError
  | indexError
deriving DecidableEq

/-- The Python exception behind each premature round exit: `read_exact`
raises `ConnectionError` when the peer closes; `deck.pop()` on an empty
list raises `IndexError`; an invalid Decision frame causes a plain
`return` (no exception). -/
def exitException : RoundExit → Option PyExc
  | .connClosed => some .connectionError
  | .invalidDecision => none
  | .deckEmpty => some .indexError

/-- The `except (ConnectionError, OSError)` clause of `handle_client`:
which exceptions the connection worker catches; anything else
propagates out of the worker uncaught. -/
def workerCatches : PyExc → Bool
  | .connectionError => true
  | .osError => true
  | .indexError => false

end BJ

namespace BJ

instance {ε α : Type} [DecidableEq ε] [DecidableEq α] : DecidableEq (Except ε α) := fun
  | .error a, .error b => decidable_of_iff (a = b) (by simp)
  | .error _, .ok _ => isFalse (by simp)
  | .ok _, .error _ => isFalse (by simp)
  | .ok a, .ok b => decidable_of_iff (a = b) (by simp)

lemma dealerLoopF_spec (fuel : Nat) (dealer deck : List Card)
    (us : List Upd) (fin dk : List Card) (b : Bool)
    (h : dealerLoopF fuel dealer deck = .ok (us, fin, dk, b)) :
    ∃ drawn, fin = dealer ++ drawn ∧
      (∀ i < drawn.length, sumCards (dealer ++ drawn.take i) < 17) ∧
      17 ≤ sumCards fin ∧
      us = drawn.map updCard ++ (if b then [updFinal RES_WIN] else []) ∧
      (b = true → 21 < sumCards fin) := by
  induction fuel generalizing dealer deck us fin dk b with
  | zero =>
    rw [dealerLoopF.eq_def] at h
    by_cases hs : sumCards dealer < 17
    · rw [if_pos hs] at h
      cases hp : pyPop deck with
      | none => rw [hp] at h; simp at h
      | some p => rw [hp] at h; simp at h
    · rw [if_neg hs] at h
      simp at h
      obtain ⟨h1, h2, h3, h4⟩ := h
      subst h1; subst h2; subst h3; subst h4
      exact ⟨[], by simp, by simp, by omega, by simp, by simp⟩
  | succ fuel ih =>
    rw [dealerLoopF.eq_def] at h
    by_cases hs : sumCards dealer < 17
    · rw [if_pos hs] at h
      cases hp : pyPop deck with
      | none => rw [hp] at h; simp at h
      | some p =>
        obtain ⟨c, deck2⟩ := p
        rw [hp] at h
        simp only [] at h
        by_cases hbust : sumCards (dealer ++ [c]) > 21
        · rw [if_pos hbust] at h
          simp at h
          obtain ⟨h1, h2, h3, h4⟩ := h
          subst h1; subst h2; subst h3; subst h4
          refine ⟨[c], rfl, ?_, by omega, by simp, fun _ => by omega⟩
          intro i hi
          have hi0 : i = 0 := by simpa using hi
          subst hi0
          simpa using hs
        · rw [if_neg hbust] at h
          cases hr : dealerLoopF fuel (dealer ++ [c]) deck2 with
          | error e => rw [hr] at h; simp at h
          | ok q =>
            obtain ⟨us2, fin2, dk2, b2⟩ := q
            rw [hr] at h
            simp at h
            obtain ⟨h1, h2, h3, h4⟩ := h
            subst h1; subst h2; subst h3; subst h4
            obtain ⟨drawn2, hfin, hpre, hsum, hus, hb⟩ :=
              ih (dealer ++ [c]) deck2 us2 fin2 dk2 b2 hr
            refine ⟨c :: drawn2, by simp [hfin], ?_, hsum, by simp [hus], hb⟩
            intro i hi
            cases i with
            | zero => simpa using hs
            | succ j =>
              have hj : j < drawn2.length := by simpa using hi
              simpa [List.append_assoc] using hpre j hj
    · rw [if_neg hs] at h
      simp at h
      obtain ⟨h1, h2, h3, h4⟩ := h
      subst h1; subst h2; subst h3; subst h4
      exact ⟨[], by simp, by simp, by omega, by simp, by simp⟩

end BJ

namespace BJ

/-- **C5.** In dealer auto-play, every draw is taken from a hand whose
running sum is strictly below 17 (so the only draw that can leave the
sum above 21 is the one taken while the sum was still below 17), the
loop never stops while the sum is below 17, and no card is ever drawn
once the sum is at least 17. -/
theorem claim_C5_dealer_policy (dealer deck : List Card)
    (us : List Upd) (fin dk : List Card) (b : Bool)
    (h : dealerLoop dealer deck = .ok (us, fin, dk, b)) :
    ∃ drawn, fin = dealer ++ drawn ∧
      (∀ i < drawn.length, sumCards (dealer ++ drawn.take i) < 17) ∧
      17 ≤ sumCards fin ∧
      (17 ≤ sumCards dealer → drawn = []) := by
  obtain ⟨drawn, hfin, hpre, hsum, hus, hb⟩ :=
    dealerLoopF_spec deck.length dealer deck us fin dk b h
  refine ⟨drawn, hfin, hpre, hsum, fun h17 => ?_⟩
  rcases drawn with _ | ⟨c, rest⟩
  · rfl
  · have h0 := hpre 0 (by simp)
    simp at h0
    omega

/-- Witness for C5: the dealer at 16 draws one card and stops at 21. -/
theorem claim_C5_dealer_policy_witness :
    ∃ drawn, ([(10, 0), (6, 1), (5, 2)] : List Card) = [(10, 0), (6, 1)] ++ drawn ∧
      (∀ i < drawn.length, sumCards ([(10, 0), (6, 1)] ++ drawn.take i) < 17) ∧
      17 ≤ sumCards [(10, 0), (6, 1), (5, 2)] ∧
      (17 ≤ sumCards [(10, 0), (6, 1)] → drawn = []) :=
  claim_C5_dealer_policy [(10, 0), (6, 1)] [(5, 2)]
    [updCard (5, 2)] [(10, 0), (6, 1), (5, 2)] [] false (by decide)

end BJ

namespace BJ

lemma resolveStand_pos (p d : Nat) : 0 < resolveStand p d := by
  unfold resolveStand RES_WIN RES_LOSS RES_TIE
  split_ifs <;> omega

lemma resolveStand_spec (p d : Nat) (hd2 : d ≤ 21) :
    (resolveStand p d = RES_WIN ↔ d < p) ∧
    (resolveStand p d = RES_LOSS ↔ p < d) ∧
    (resolveStand p d = RES_TIE ↔ p = d) := by
  simp only [resolveStand, RES_WIN, RES_LOSS, RES_TIE]
  split_ifs with h1 h2 h3 <;> refine ⟨⟨?_, ?_⟩, ⟨?_, ?_⟩, ⟨?_, ?_⟩⟩ <;> intro h' <;> omega

/-- **C6.** After the dealer stands (no bust: `busted = false`, dealer
sum in 17..21, player sum at most 21), the dealer phase sends exactly
one terminal update, it is the last frame, and its result matches the
standard comparison rule; win/loss/tie are mutually exclusive and
exhaustive over all such sums. -/
theorem claim_C6_stand_outcome (player dealer : List Card) (down : Card) (deck : List Card)
    (us : List Upd) (fin dk : List Card)
    (h : dealerPhase player dealer down deck = .ok (us, fin, dk, false))
    (hp : sumCards player ≤ 21) (hd21 : sumCards fin ≤ 21) :
    17 ≤ sumCards fin ∧
    (us.filter (fun u => u.result ≠ RES_NOT_OVER)).length = 1 ∧
    us.getLast? = some (updFinal (resolveStand (sumCards player) (sumCards fin))) ∧
    (resolveStand (sumCards player) (sumCards fin) = RES_WIN ↔
      sumCards fin < sumCards player) ∧
    (resolveStand (sumCards player) (sumCards fin) = RES_LOSS ↔
      sumCards player < sumCards fin) ∧
    (resolveStand (sumCards player) (sumCards fin) = RES_TIE ↔
      sumCards player = sumCards fin) := by
  unfold dealerPhase at h
  cases hr : dealerLoop dealer deck with
  | error e => rw [hr] at h; simp at h
  | ok q =>
    obtain ⟨us0, fin0, dk0, b0⟩ := q
    rw [hr] at h
    cases b0 with
    | true => simp at h
    | false =>
      simp at h
      obtain ⟨h1, h2, h3⟩ := h
      obtain ⟨drawn, hfin, hpre, hsum, hus, hb⟩ :=
        dealerLoopF_spec deck.length dealer deck us0 fin0 dk0 false hr
      simp at hus
      subst h2
      obtain ⟨hw, hl, ht⟩ := resolveStand_spec (sumCards player) (sumCards fin0) hd21
      refine ⟨hsum, ?_, ?_, hw, hl, ht⟩
      · rw [← h1, hus]
        have hrs : resolveStand (sumCards player) (sumCards fin0) ≠ RES_NOT_OVER := by
          have := resolveStand_pos (sumCards player) (sumCards fin0)
          simp only [RES_NOT_OVER]
          omega
        have hrs0 : ¬ resolveStand (sumCards player) (sumCards fin0) = 0 := by
          simpa [RES_NOT_OVER] using hrs
        simp [List.filter_cons, List.filter_append, updCard, updFinal,
          RES_NOT_OVER, hrs0]
        exact fun a x y hm he => he ▸ rfl
      · rw [← h1, hus]
        rw [show updCard down :: (drawn.map updCard ++
              [updFinal (resolveStand (sumCards player) (sumCards fin0))]) =
            (updCard down :: drawn.map updCard) ++
              [updFinal (resolveStand (sumCards player) (sumCards fin0))] by simp]
        exact List.getLast?_concat _

/-- Witness for C6: player 11 vs dealer 20 resolves to a single
terminal loss update. -/
theorem claim_C6_stand_outcome_witness :
    17 ≤ sumCards [(10, 0), (10, 1)] ∧
    (([updCard (10, 1), updFinal RES_LOSS].filter
        (fun u => u.result ≠ RES_NOT_OVER))).length = 1 ∧
    [updCard (10, 1), updFinal RES_LOSS].getLast? =
      some (updFinal (resolveStand (sumCards [(5, 0), (6, 0)])
        (sumCards [(10, 0), (10, 1)]))) ∧
    (resolveStand (sumCards [(5, 0), (6, 0)]) (sumCards [(10, 0), (10, 1)]) = RES_WIN ↔
      sumCards [(10, 0), (10, 1)] < sumCards [(5, 0), (6, 0)]) ∧
    (resolveStand (sumCards [(5, 0), (6, 0)]) (sumCards [(10, 0), (10, 1)]) = RES_LOSS ↔
      sumCards [(5, 0), (6, 0)] < sumCards [(10, 0), (10, 1)]) ∧
    (resolveStand (sumCards [(5, 0), (6, 0)]) (sumCards [(10, 0), (10, 1)]) = RES_TIE ↔
      sumCards [(5, 0), (6, 0)] = sumCards [(10, 0), (10, 1)]) :=
  claim_C6_stand_outcome [(5, 0), (6, 0)] [(10, 0), (10, 1)] (10, 1) []
    [updCard (10, 1), updFinal RES_LOSS] [(10, 0), (10, 1)] [] (by decide)
    (by decide) (by decide)

end BJ

namespace BJ

lemma playerTurn_spec (ds : List Dmsg) (player deck : List Card)
    (us : List Upd) (b : Bool) (p2 dk2 : List Card) (ds2 : List Dmsg)
    (h : playerTurn player deck ds = .ok (us, b, p2, dk2, ds2)) :
    ∃ drawn, p2 = player ++ drawn ∧
      us = drawn.map updCard ++ (if b then [updFinal RES_LOSS] else []) ∧
      (b = true → drawn ≠ [] ∧ 21 < sumCards p2) := by
  induction ds generalizing player deck us b p2 dk2 ds2 with
  | nil => simp [playerTurn] at h
  | cons d rest ih =>
    cases d with
    | invalid => simp [playerTurn] at h
    | stand =>
      simp [playerTurn] at h
      obtain ⟨h1, h2, h3, h4, h5⟩ := h
      subst h1; subst h2; subst h3; subst h4; subst h5
      exact ⟨[], by simp, by simp, by simp⟩
    | hit =>
      rw [playerTurn] at h
      cases hp : pyPop deck with
      | none => rw [hp] at h; simp at h
      | some q =>
        obtain ⟨c, deck'⟩ := q
        rw [hp] at h
        simp only [] at h
        by_cases hbust : sumCards (player ++ [c]) > 21
        · rw [if_pos hbust] at h
          simp at h
          obtain ⟨h1, h2, h3, h4, h5⟩ := h
          subst h1; subst h2; subst h3; subst h4; subst h5
          exact ⟨[c], rfl, by simp, fun _ => ⟨by simp, hbust⟩⟩
        · rw [if_neg hbust] at h
          cases hr : playerTurn (player ++ [c]) deck' rest with
          | error e => rw [hr] at h; simp at h
          | ok q2 =>
            obtain ⟨us3, b3, p3, dk3, ds3⟩ := q2
            rw [hr] at h
            simp at h
            obtain ⟨drawn3, hfin, hus, hbst⟩ := ih (player ++ [c]) deck' us3 b3 p3 dk3 ds3 hr
            obtain ⟨h1, h2, h3, h4, h5⟩ := h
            subst h1; subst h2; subst h3; subst h4; subst h5
            refine ⟨c :: drawn3, by simp [hfin], by simp [hus], fun hb => ⟨by simp, (hbst hb).2⟩⟩

end BJ

namespace BJ

lemma exists_concat_of_ne_nil {α : Type} (l : List α) (h : l ≠ []) :
    ∃ l2 a, l = l2 ++ [a] := by
  induction l with
  | nil => exact absurd rfl h
  | cons x xs ih =>
    cases xs with
    | nil => exact ⟨[], x, rfl⟩
    | cons y ys =>
      obtain ⟨l2, a, he⟩ := ih (by simp)
      exact ⟨x :: l2, a, by simp [he]⟩

lemma dealerPhase_upd_shape (player dealer : List Card) (down : Card) (deck : List Card)
    (us : List Upd) (fin dk : List Card) (b : Bool)
    (h : dealerPhase player dealer down deck = .ok (us, fin, dk, b)) :
    ∀ u ∈ us, (∃ c, u = updCard c) ∨ ∃ r, u = updFinal r := by
  unfold dealerPhase at h
  cases hr : dealerLoop dealer deck with
  | error e => rw [hr] at h; simp at h
  | ok q =>
    obtain ⟨us0, fin0, dk0, b0⟩ := q
    rw [hr] at h
    obtain ⟨drawn, hfin, hpre, hsum, hus, hb⟩ :=
      dealerLoopF_spec deck.length dealer deck us0 fin0 dk0 b0 hr
    cases b0 with
    | true =>
      simp at h
      obtain ⟨h1, h2, h3⟩ := h
      subst h1
      intro u hu
      simp [hus] at hu
      rcases hu with rfl | ⟨c, s, hm, rfl⟩ | rfl
      · exact Or.inl ⟨down, rfl⟩
      · exact Or.inl ⟨(c, s), rfl⟩
      · exact Or.inr ⟨RES_WIN, rfl⟩
    | false =>
      simp at h
      obtain ⟨h1, h2, h3⟩ := h
      subst h1
      intro u hu
      simp [hus] at hu
      rcases hu with rfl | ⟨c, s, hm, rfl⟩ | rfl
      · exact Or.inl ⟨down, rfl⟩
      · exact Or.inl ⟨(c, s), rfl⟩
      · exact Or.inr ⟨_, rfl⟩

lemma playRound_spec (deck : List Card) (ds : List Dmsg) (tr : List Upd) (b : Bool)
    (ds2 : List Dmsg) (h : playRound deck ds = .ok (tr, b, ds2)) :
    (∀ u ∈ tr, (∃ c, u = updCard c) ∨ ∃ r, u = updFinal r) ∧
    (b = true → ∃ pre c, tr = pre ++ [updCard c, updFinal RES_LOSS] ∧
      (∀ u ∈ pre, u.result = RES_NOT_OVER)) := by
  unfold playRound at h
  cases h1 : pyPop deck with
  | none => rw [h1] at h; simp at h
  | some q1 =>
  obtain ⟨p1, deck1⟩ := q1
  rw [h1] at h
  simp only [] at h
  cases h2 : pyPop deck1 with
  | none => rw [h2] at h; simp at h
  | some q2 =>
  obtain ⟨p2, deck2⟩ := q2
  rw [h2] at h
  simp only [] at h
  cases h3 : pyPop deck2 with
  | none => rw [h3] at h; simp at h
  | some q3 =>
  obtain ⟨up, deck3⟩ := q3
  rw [h3] at h
  simp only [] at h
  cases h4 : pyPop deck3 with
  | none => rw [h4] at h; simp at h
  | some q4 =>
  obtain ⟨dn, deck4⟩ := q4
  rw [h4] at h
  simp only [] at h
  cases ht : playerTurn [p1, p2] deck4 ds with
  | error e => rw [ht] at h; simp at h
  | ok qt =>
  obtain ⟨us, bust, player2, deck5, dsr⟩ := qt
  rw [ht] at h
  obtain ⟨drawn, hp2, hus, hbust⟩ :=
    playerTurn_spec ds [p1, p2] deck4 us bust player2 deck5 dsr ht
  cases bust with
  | true =>
    simp at h
    obtain ⟨hh1, hh2, hh3⟩ := h
    subst hh1; subst hh2; subst hh3
    obtain ⟨hne, hgt⟩ := hbust rfl
    simp at hus
    obtain ⟨pre0, cl, hdr⟩ := exists_concat_of_ne_nil drawn hne
    subst hdr
    constructor
    · intro u hu
      simp [hus] at hu
      rcases hu with rfl | rfl | rfl | ⟨c, s, hm, rfl⟩ | rfl | rfl
      · exact Or.inl ⟨p1, rfl⟩
      · exact Or.inl ⟨p2, rfl⟩
      · exact Or.inl ⟨up, rfl⟩
      · exact Or.inl ⟨(c, s), rfl⟩
      · exact Or.inl ⟨cl, rfl⟩
      · exact Or.inr ⟨RES_LOSS, rfl⟩
    · intro _
      refine ⟨[updCard p1, updCard p2, updCard up] ++ pre0.map updCard, cl, ?_, ?_⟩
      · simp [hus]
      · intro u hu
        simp at hu
        rcases hu with rfl | rfl | rfl | ⟨c, s, hm, rfl⟩
        · rfl
        · rfl
        · rfl
        · rfl
  | false =>
    simp only [if_neg Bool.false_ne_true] at h
    cases hd : dealerPhase player2 [up, dn] dn deck5 with
    | error e => rw [hd] at h; simp at h
    | ok qd =>
    obtain ⟨dus, fin, dk, bd⟩ := qd
    rw [hd] at h
    simp at h
    obtain ⟨hh1, hh2, hh3⟩ := h
    subst hh1; subst hh2; subst hh3
    have hshape := dealerPhase_upd_shape player2 [up, dn] dn deck5 dus fin dk bd hd
    constructor
    · intro u hu
      simp [hus] at hu
      rcases hu with rfl | rfl | rfl | ⟨c, s, hm, rfl⟩ | hu
      · exact Or.inl ⟨p1, rfl⟩
      · exact Or.inl ⟨p2, rfl⟩
      · exact Or.inl ⟨up, rfl⟩
      · exact Or.inl ⟨(c, s), rfl⟩
      · exact hshape u hu
    · intro hfalse
      cases hfalse

end BJ

namespace BJ

/-- **C7.** When the player busts, the round's trace ends with exactly
two frames in order: the not-over update carrying the hit card, then
the terminal loss update with `rank = 0, suit = 0`; every frame before
them is a not-over card update (so no dealer-play frame ever occurs),
and in every playRound trace a terminal update carries zero card
fields. -/
theorem claim_C7_player_bust (deck : List Card) (ds : List Dmsg) (tr : List Upd)
    (ds2 : List Dmsg) (h : playRound deck ds = .ok (tr, true, ds2)) :
    (∃ pre c, tr = pre ++ [updCard c, updFinal RES_LOSS] ∧
      (∀ u ∈ pre, u.result = RES_NOT_OVER)) ∧
    tr.getLast? = some (updFinal RES_LOSS) ∧
    (updFinal RES_LOSS).rank = 0 ∧ (updFinal RES_LOSS).suit = 0 ∧
    (∀ u ∈ tr, u.result ≠ RES_NOT_OVER → u.rank = 0 ∧ u.suit = 0) := by
  obtain ⟨hshape, hbust⟩ := playRound_spec deck ds tr true ds2 h
  obtain ⟨pre, c, htr, hpre⟩ := hbust rfl
  refine ⟨⟨pre, c, htr, hpre⟩, ?_, rfl, rfl, ?_⟩
  · rw [htr]
    rw [show pre ++ [updCard c, updFinal RES_LOSS] =
        (pre ++ [updCard c]) ++ [updFinal RES_LOSS] by simp]
    exact List.getLast?_concat _
  · intro u hu hres
    rcases hshape u hu with ⟨c2, rfl⟩ | ⟨r, rfl⟩
    · exact absurd rfl hres
    · exact ⟨rfl, rfl⟩

/-- Witness for C7: the player at 19 hits a 5 and busts at 24;
the trace ends with the hit card followed by the terminal loss. -/
theorem claim_C7_player_bust_witness :
    (∃ pre c,
      ([updCard (10, 0), updCard (9, 1), updCard (11, 2), updCard (5, 2),
        updFinal RES_LOSS] : List Upd) = pre ++ [updCard c, updFinal RES_LOSS] ∧
      (∀ u ∈ pre, u.result = RES_NOT_OVER)) ∧
    ([updCard (10, 0), updCard (9, 1), updCard (11, 2), updCard (5, 2),
      updFinal RES_LOSS] : List Upd).getLast? = some (updFinal RES_LOSS) ∧
    (updFinal RES_LOSS).rank = 0 ∧ (updFinal RES_LOSS).suit = 0 ∧
    (∀ u ∈ ([updCard (10, 0), updCard (9, 1), updCard (11, 2), updCard (5, 2),
      updFinal RES_LOSS] : List Upd), u.result ≠ RES_NOT_OVER →
        u.rank = 0 ∧ u.suit = 0) :=
  claim_C7_player_bust [(5, 2), (10, 1), (11, 2), (9, 1), (10, 0)] [Dmsg.hit]
    [updCard (10, 0), updCard (9, 1), updCard (11, 2), updCard (5, 2),
      updFinal RES_LOSS] [] (by decide)

end BJ

namespace BJ

/-- **C8.** Every deck produced by `fresh_shuffled_deck` — i.e. any
permutation of the comprehension-built base list, whatever
`random.shuffle` does — has exactly 52 cards, no duplicates, contains
exactly the pairs with rank 1..13 and suit 0..3, and contains each such
pair exactly once. -/
theorem claim_C8_fresh_deck (d : List Card) (h : d.Perm freshDeckBase) :
    d.length = 52 ∧ d.Nodup ∧
    (∀ c : Card, c ∈ d ↔ 1 ≤ c.1 ∧ c.1 ≤ 13 ∧ c.2 ≤ 3) ∧
    (∀ r s : Nat, 1 ≤ r → r ≤ 13 → s ≤ 3 → d.count (r, s) = 1) := by
  refine ⟨h.length_eq.trans (by decide), h.nodup_iff.mpr (by decide), ?_, ?_⟩
  · intro c
    rw [h.mem_iff]
    constructor
    · intro hc
      have h1 : ∀ c ∈ freshDeckBase, 1 ≤ c.1 ∧ c.1 ≤ 13 ∧ c.2 ≤ 3 := by decide
      exact h1 c hc
    · rintro ⟨ha, hb, hc2⟩
      have h2 : ∀ i < 13, ∀ j < 4, ((i + 1 : Nat), j) ∈ freshDeckBase := by decide
      have he : (c.1 - 1 + 1, c.2) = c := by
        cases c
        simp
        omega
      rw [← he]
      exact h2 (c.1 - 1) (by omega) c.2 (by omega)
  · intro r s h1 h2 h3
    have hcnt : d.count (r, s) = freshDeckBase.count (r, s) := by
      show d.countP (fun x => x == (r, s)) = freshDeckBase.countP (fun x => x == (r, s))
      exact h.countP_eq _
    rw [hcnt]
    have hc : ∀ i < 13, ∀ j < 4, freshDeckBase.count (i + 1, j) = 1 := by decide
    have he : ((r - 1 + 1 : Nat), s) = (r, s) := by
      simp
      omega
    rw [← he]
    exact hc (r - 1) (by omega) s (by omega)

/-- Witness for C8 at the unshuffled base deck itself. -/
theorem claim_C8_fresh_deck_witness :
    freshDeckBase.length = 52 ∧ freshDeckBase.Nodup ∧
    (∀ c : Card, c ∈ freshDeckBase ↔ 1 ≤ c.1 ∧ c.1 ≤ 13 ∧ c.2 ≤ 3) ∧
    (∀ r s : Nat, 1 ≤ r → r ≤ 13 → s ≤ 3 → freshDeckBase.count (r, s) = 1) :=
  claim_C8_fresh_deck freshDeckBase (List.Perm.refl _)

end BJ

namespace BJ

lemma sessionLoop_count (decks : Nat → List Card) (n : Nat) :
    ∀ (i : Nat) (ds : List Dmsg), (sessionLoop decks i ds n).2 = none →
      (sessionLoop decks i ds n).1 = n := by
  induction n with
  | zero => intro i ds _; rfl
  | succ n ih =>
    intro i ds h
    rw [sessionLoop] at h ⊢
    cases hr : playRound (decks i) ds with
    | error e => rw [hr] at h; simp at h
    | ok q =>
      obtain ⟨tr, b, ds2⟩ := q
      rw [hr] at h
      simp only [] at h ⊢
      rw [ih (i + 1) ds2 h]

/-- **C4 (counterexample).** A client request for 300 rounds is *not*
clamped to 255 by the dealer: `pack_request` wraps 300 to the byte 44,
the dealer decodes 44, and its clamp leaves 44 unchanged. -/
theorem claim_C4_counterexample :
    unpackRequest (packRequest 300 []) = some (44, []) ∧
    clampRounds 44 = 44 ∧ (44 : Nat) ≠ 255 := by
  refine ⟨by decide, by decide, by decide⟩

/-- **C4 (amended).** The rounds byte decoded by the dealer is the
requested count reduced mod 256 (so 300 arrives as 44, not 255); the
dealer clamps the decoded count `r ∈ 0..255` into `[1, 255]` — which
changes only `r = 0` — and the round loop then plays exactly that many
rounds whenever no round aborts. -/
theorem claim_C4_clamp_and_rounds (r : Nat) (name : List Nat)
    (decks : Nat → List Card) (ds : List Dmsg)
    (hr : r < 256) (h32 : name.length ≤ 32) (h0 : ∀ b ∈ name, b ≠ 0)
    (hok : (sessionLoop decks 0 ds (clampRounds r)).2 = none) :
    unpackRequest (packRequest r name) = some (r, name) ∧
    1 ≤ clampRounds r ∧ clampRounds r ≤ 255 ∧
    (1 ≤ r → clampRounds r = r) ∧
    handleClient (packRequest r name) decks ds = (clampRounds r, none) := by
  have htn : (((r : Nat) : Int) % 256).toNat = r := by omega
  have hreq : unpackRequest (packRequest (r : Nat) name) = some (r, name) := by
    rw [unpackRequest_packRequest _ _ h32 h0, htn]
  refine ⟨hreq, ?_, ?_, ?_, ?_⟩
  · simp [clampRounds]
  · simp [clampRounds]
  · intro h1
    simp [clampRounds]
    omega
  · unfold handleClient
    rw [hreq]
    have hfst := sessionLoop_count decks (clampRounds r) 0 ds hok
    exact Prod.ext hfst hok

/-- Witness for the amended C4: a 2-round request with a cooperative
client plays exactly 2 rounds. -/
theorem claim_C4_clamp_and_rounds_witness :
    unpackRequest (packRequest 2 [99]) = some (2, [99]) ∧
    1 ≤ clampRounds 2 ∧ clampRounds 2 ≤ 255 ∧
    (1 ≤ 2 → clampRounds 2 = 2) ∧
    handleClient (packRequest 2 [99])
      (fun _ => [(2, 2), (10, 1), (10, 0), (6, 0), (5, 0)])
      [Dmsg.stand, Dmsg.stand] = (clampRounds 2, none) :=
  claim_C4_clamp_and_rounds 2 [99]
    (fun _ => [(2, 2), (10, 1), (10, 0), (6, 0), (5, 0)])
    [Dmsg.stand, Dmsg.stand] (by decide) (by decide) (by decide) (by decide)

/-- **C9 (counterexample).** Drawing from an empty deck surfaces as a
Python `IndexError` (`deckEmpty`), which the worker's
`except (ConnectionError, OSError)` clause does not catch: deck
underflow escapes the connection worker as an unclassified crash
instead of being reported as an engine fault. -/
theorem claim_C9_counterexample :
    playRound ([] : List Card) ([] : List Dmsg) = Except.error RoundExit.deckEmpty ∧
    exitException RoundExit.deckEmpty = some PyExc.indexError ∧
    workerCatches PyExc.indexError = false :=
  ⟨rfl, rfl, rfl⟩

/-- **C9 (amended).** Drawing from an empty deck fails — `pyPop`
returns `none`, and both the round engine and the dealer loop abort
with `deckEmpty` — but the failure is a generic `IndexError`, not a
distinct exhaustion error, and the worker's handler (which catches only
`ConnectionError` and `OSError`) lets it escape uncaught. -/
theorem claim_C9_empty_deck (ds : List Dmsg) :
    pyPop ([] : List Card) = none ∧
    playRound [] ds = Except.error RoundExit.deckEmpty ∧
    dealerLoop [] [] = Except.error RoundExit.deckEmpty ∧
    exitException RoundExit.deckEmpty = some PyExc.indexError ∧
    workerCatches PyExc.indexError = false :=
  ⟨rfl, rfl, rfl, rfl, rfl⟩

end BJ
